import Mathlib

/-!
Verification of the retrieval-and-context-assembly pipeline of the
semantic-search service.

The development shallowly embeds the Python sources:

* `search.py` — `QdrantSemanticSearch._is_boilerplate`, `_extract_text`,
  `ask`, and the module-level `OpenRouterEmbedder.embed`;
* `embedder.py` — the standalone `OpenRouterEmbedder.embed`;
* `app/api/endpoints/test.py` — the `question_api` handler.

Strings are modelled as `List Char`; Python floats as `ℚ`; payloads as
partial maps `String → Option PVal`.  Regular expressions are embedded as
executable character-list matchers whose faithfulness to the Python
patterns is argued in the doc comment of each definition.  The character
classes `\w` and `\s` are modelled by their ASCII meaning, which covers
every string the pipeline's own configuration mentions.

The methods `ask_many` and `answer_text`, called by `question_api`, are
not present in the repository sources; they are modelled from the
specification (sections 4.4 and 4.5) and marked as such.
-/

/-- Python `str.strip()` whitespace class (ASCII): space, tab, newline,
carriage return, vertical tab, form feed. -/
def isPySpace (c : Char) : Bool :=
  c = ' ' || c = '\t' || c = '\n' || c = '\r' || c = '\x0b' || c = '\x0c'

/-- Regex `\w` (ASCII): letters, digits and underscore. -/
def isWordChar (c : Char) : Bool :=
  c.isAlphanum || c = '_'

/-- The character class `[\d\s\-\(\)]` of the phone-number pattern in
`search.py`. -/
def isPhoneClass (c : Char) : Bool :=
  c.isDigit || isPySpace c || c = '-' || c = '(' || c = ')'

/-- Python `str.strip()`: drop whitespace from both ends. -/
def pyStrip (cs : List Char) : List Char :=
  ((cs.dropWhile isPySpace).reverse.dropWhile isPySpace).reverse

/-- Python `str.lower()` restricted to ASCII letters. -/
def toLowerList (cs : List Char) : List Char :=
  cs.map Char.toLower

/-- Python substring test `needle in hay`. -/
def containsSub (needle : List Char) : List Char → Bool
  | [] => needle.isEmpty
  | c :: t => needle.isPrefixOf (c :: t) || containsSub needle t

/-- A match of `\d[\d\s\-\(\)]{7,}\d` anchored at the head of `l`: a digit
followed by at least seven phone-class characters and then another digit.
Because every digit is itself in the phone class, such a match exists at
the head iff the head is a digit and the maximal following run of
phone-class characters contains a digit at offset at least seven. -/
def phoneMatchCore (l : List Char) : Bool :=
  match l with
  | [] => false
  | c :: rest => c.isDigit && ((rest.takeWhile isPhoneClass).drop 7).any Char.isDigit

/-- `re.search` of `_phone_re = \+?\d[\d\s\-\(\)]{7,}\d` from `search.py`:
try to match at every position; at a `+` the optional prefix is consumed
(a bare `\d` can never match `+`). -/
def phoneSearch : List Char → Bool
  | [] => false
  | c :: rest =>
    (if c = '+' then phoneMatchCore rest else phoneMatchCore (c :: rest)) || phoneSearch rest

/-- A whole segment matching one group `\W*\w{1,3}\W*` of
`_only_short_tokens_re`: the leading `\W*` is forced to the maximal
non-word prefix, the `\w{1,3}` must then consume the entire following word
run (a left-over word character could not be matched by the closing
`\W*`), and the remainder must be all non-word. -/
def isShortGroup (l : List Char) : Bool :=
  let l1 := l.dropWhile (fun c => !isWordChar c)
  let w := l1.takeWhile isWordChar
  let r := l1.dropWhile isWordChar
  decide (1 ≤ w.length) && decide (w.length ≤ 3) && r.all (fun c => !isWordChar c)

/-- Full-string match of `(\W*\w{1,3}\W*){1,k}`: some decomposition into
between 1 and `k` group segments.  All split points are tried, which is
exactly the backtracking of the regex engine. -/
def matchShortGroups : List Char → Nat → Bool
  | _, 0 => false
  | l, (k+1) =>
    (List.range (l.length + 1)).any fun i =>
      isShortGroup (l.take i) && ((l.drop i).isEmpty || matchShortGroups (l.drop i) k)

/-- `re.match` of `_only_short_tokens_re = ^(\W*\w{1,3}\W*){1,6}$` from
`search.py` (the input it is applied to contains no newline, so `$` is
end-of-string). -/
def shortTokensMatch (cs : List Char) : Bool :=
  matchShortGroups cs 6

/-- `_bad_substrings` from `search.py`. -/
def badSubstrings : List String :=
  [ "Barcha huquqlar"
  , "©"
  , "SOFF CRM"
  , "Demo olish"
  , "Qo\x27ng\x27iroq"
  , "Narxlarni ko\x27rish"
  , "Bizning hamjamiyatimizga qo\x27shiling"
  , "Kontakt"
  , "Biz haqimizda"
  , "Bosh sahifa"
  ]

/-- The denylist test of `_is_boilerplate`: some `_bad_substrings` entry,
lowercased, occurs in the lowercased text. -/
def denyHit (t : List Char) : Bool :=
  badSubstrings.any fun s => containsSub (toLowerList s.data) (toLowerList t)

/-- Newline replacement `t.replace("\n", " ")` from `_is_boilerplate`. -/
def newlineToSpace (cs : List Char) : List Char :=
  cs.map fun c => if c = '\n' then ' ' else c

/-- `QdrantSemanticSearch._is_boilerplate` from `search.py`. -/
def is_boilerplate (text : List Char) : Bool :=
  if text.isEmpty then true
  else
    let t := pyStrip text
    if t.length < 60 then true
    else if phoneSearch t then true
    else if denyHit t then true
    else if shortTokensMatch (newlineToSpace t) then true
    else false

/-- A payload value: a string, or any non-string JSON value (whose shape
`_extract_text` never inspects). -/
inductive PVal where
  | str (s : String)
  | other
deriving DecidableEq

/-- A Qdrant point payload: a partial map from keys to values. -/
def Payload := String → Option PVal

/-- One probe of `_extract_text`: the key's value, stripped, provided it
is a string that is non-empty after stripping. -/
def tryKey (p : Payload) (k : String) : Option (List Char) :=
  match p k with
  | some (.str s) => if (pyStrip s.data).isEmpty then none else some (pyStrip s.data)
  | _ => none

/-- The fallback key order of `_extract_text`. -/
def fallbackKeys : List String :=
  ["clean_text", "text", "body", "answer", "question"]

/-- The fallback loop of `_extract_text`: first usable key wins. -/
def firstUsable (p : Payload) : List String → List Char
  | [] => []
  | k :: ks =>
    match tryKey p k with
    | some v => v
    | none => firstUsable p ks

/-- `QdrantSemanticSearch._extract_text` from `search.py`: probe the
configured `text_key`, then the fixed fallback keys. -/
def extract_text (textKey : String) (p : Payload) : List Char :=
  match tryKey p textKey with
  | some v => v
  | none => firstUsable p fallbackKeys

/-- A point returned by the vector index (`res.points` element in `ask`):
an optional similarity score and an optional payload.  Scores are
modelled as rationals (`float(p.score)` is the identity here). -/
structure Point where
  score : Option ℚ
  payload : Option Payload

/-- The dictionary returned by `QdrantSemanticSearch.ask`. -/
structure AskResult where
  found : Bool
  text : Option (List Char)
  score : Option ℚ
  payload : Option Payload

/-- The `{}` default for `p.payload or {}`. -/
def emptyPayload : Payload := fun _ => none

/-- The threshold test of `ask`: a candidate is *skipped* iff the
threshold and the score are both present and the score is below the
threshold; this function is the survival (non-skip) side. -/
def survivesThreshold (thr : Option ℚ) (score : Option ℚ) : Bool :=
  match thr, score with
  | some th, some sc => !(decide (sc < th))
  | _, _ => true

/-- The candidate-selection loop of `ask`: the first point that survives
the threshold and whose extracted text is not boilerplate is chosen. -/
def chosen (tk : String) (thr : Option ℚ) : List Point → Option (List Char × Option ℚ × Payload)
  | [] => none
  | p :: ps =>
    if survivesThreshold thr p.score then
      if is_boilerplate (extract_text tk (p.payload.getD emptyPayload)) then chosen tk thr ps
      else some (extract_text tk (p.payload.getD emptyPayload), p.score, p.payload.getD emptyPayload)
    else chosen tk thr ps

/-- `QdrantSemanticSearch.ask` from `search.py`, given the list of points
the index returned (the embedding call and the index query are the
injected inputs of this pure model; `ask` itself raises nothing). -/
def ask (tk : String) (thr : Option ℚ) (points : List Point) : AskResult :=
  match points with
  | [] => { found := false, text := none, score := none, payload := none }
  | p0 :: _ =>
    match chosen tk thr points with
    | none =>
      let payload0 := p0.payload.getD emptyPayload
      let text0 := extract_text tk payload0
      { found := false
      , text := if text0.isEmpty then none else some text0
      , score := p0.score
      , payload := some payload0 }
    | some (t, s, pl) => { found := true, text := some t, score := s, payload := some pl }

/-- The provider HTTP response consumed by `embed`: status code, raw body
text, and the embedding that `r.json()["data"][0]["embedding"]` would
parse from the body on the success path. -/
structure HttpResponse where
  status : Nat
  text : String
  embedding : List ℚ

namespace SearchModule

/-- `OpenRouterEmbedder.embed` from `search.py`: raise on a non-200
status with a message carrying the status code and the body. -/
def embed (r : HttpResponse) : Except String (List ℚ) :=
  if r.status ≠ 200 then .error ("OpenRouter error " ++ toString r.status ++ ": " ++ r.text)
  else .ok r.embedding

end SearchModule

namespace EmbedderModule

/-- `OpenRouterEmbedder.embed` from `embedder.py`: raise on a non-200
status with a message carrying only the body. -/
def embed (r : HttpResponse) : Except String (List ℚ) :=
  if r.status ≠ 200 then .error ("Error: " ++ r.text)
  else .ok r.embedding

end EmbedderModule

/-- A candidate returned by the vector index, as the spec's data model
has it: id, optional score, payload. -/
structure Candidate where
  id : Nat
  score : Option ℚ
  payload : Payload

/-- The spec's Match: a candidate enriched with its extracted text. -/
structure Match where
  id : Nat
  score : Option ℚ
  text : List Char
  payload : Payload

/-- The retrieval result `{found, matches}` of the spec's orchestrator
contract. -/
structure RetrieveResult where
  found : Bool
  matchList : List Match

/-- Modelled from the spec: the drop test of `ask_many` (spec section 4.5
step 3), a method called by `question_api` but absent from the sources —
"if scoreThreshold is set and the candidate's score is below it, drop the
candidate". -/
def dropByThreshold (thr : Option ℚ) (score : Option ℚ) : Bool :=
  match thr, score with
  | some th, some sc => decide (sc < th)
  | _, _ => false

/-- Modelled from the spec: the candidate loop of `ask_many` (spec
section 4.5 steps 3–4): extract text, drop threshold failures, keep
index-returned order. -/
def ask_many_loop (tk : String) (thr : Option ℚ) : List Candidate → List Match
  | [] => []
  | c :: cs =>
    if dropByThreshold thr c.score then ask_many_loop tk thr cs
    else { id := c.id, score := c.score, text := extract_text tk c.payload, payload := c.payload }
      :: ask_many_loop tk thr cs

/-- Modelled from the spec: `QdrantSemanticSearch.ask_many`, the
orchestrator entry point `retrieve` of spec section 4.5, which is called
by `question_api` but is not present in the repository sources. -/
def ask_many (tk : String) (thr : Option ℚ) (cands : List Candidate) : RetrieveResult :=
  let ms := ask_many_loop tk thr cands
  { found := !ms.isEmpty, matchList := ms }

/-- The spec's sort key: score with missing treated as 0 (spec section
4.4 step 2). -/
def matchKey (m : Match) : ℚ :=
  m.score.getD 0

/-- Stable insertion for the descending-by-score sort: walk past strictly
greater keys only, so ties keep their original relative order. -/
def insertByScore (m : Match) : List Match → List Match
  | [] => [m]
  | y :: ys => if matchKey m < matchKey y then y :: insertByScore m ys else m :: y :: ys

/-- Modelled from the spec: the stable descending sort of section 4.4
step 2. -/
def sortByScore (l : List Match) : List Match :=
  l.foldr insertByScore []

/-- The fixed separator of spec section 4.4 step 7. -/
def SEP : List Char := "\n\n---\n\n".data

/-- Modelled from the spec: the selection loop of `answer_text` (spec
section 4.4 steps 3–5), a method called by `question_api` but absent from
the sources.  `seen` holds the trimmed texts already selected, `acc` the
assembled string so far (separators included in the running total), `n`
the number of selected texts. -/
def assembleLoop (maxChars maxChunks : Nat) :
    List Match → List (List Char) → List Char → Nat → List Char
  | [], _, acc, _ => acc
  | m :: ms, seen, acc, n =>
    if (pyStrip m.text).isEmpty then assembleLoop maxChars maxChunks ms seen acc n
    else if is_boilerplate m.text then assembleLoop maxChars maxChunks ms seen acc n
    else if seen.contains (pyStrip m.text) then assembleLoop maxChars maxChunks ms seen acc n
    else if maxChars <
        acc.length + (if n = 0 then [] else SEP).length + (pyStrip m.text).length then
      if 120 ≤ maxChars - (acc.length + (if n = 0 then [] else SEP).length) then
        acc ++ (if n = 0 then [] else SEP) ++
          (pyStrip m.text).take (maxChars - (acc.length + (if n = 0 then [] else SEP).length))
      else acc
    else if maxChunks ≤ n + 1 then acc ++ (if n = 0 then [] else SEP) ++ pyStrip m.text
    else assembleLoop maxChars maxChunks ms (pyStrip m.text :: seen)
      (acc ++ (if n = 0 then [] else SEP) ++ pyStrip m.text) (n + 1)

/-- Modelled from the spec: `QdrantSemanticSearch.answer_text`, the
context assembler `assemble` of spec section 4.4, called by
`question_api` but not present in the repository sources.  Empty input
gives the empty string (step 1); if the selection loop selects nothing,
fall back to the highest-scored match's raw trimmed text truncated to the
budget (step 6). -/
def answer_core (maxChars maxChunks : Nat) : List Match → List Char
  | [] => []
  | top :: rest =>
    if (assembleLoop maxChars maxChunks (top :: rest) [] [] 0).isEmpty then
      (pyStrip top.text).take maxChars
    else assembleLoop maxChars maxChunks (top :: rest) [] [] 0

def answer_text (ms : List Match) (maxChars maxChunks : Nat) : List Char :=
  answer_core maxChars maxChunks (sortByScore ms)

/-- The response dictionary of `question_api`. -/
structure ApiResponse where
  answer : List Char
  status : String
  matchList : List Match

/-- `question_api` from `app/api/endpoints/test.py`, given the candidates
the index returned for the question: `ask_many` with no threshold, then
`answer_text` with `max_chars=1800, max_chunks=6`; fall back to the fixed
string when no context was assembled, else return the context and at most
five matches. -/
def question_api (cands : List Candidate) : ApiResponse :=
  let res := ask_many "text" none cands
  let context := answer_text res.matchList 1800 6
  if context.isEmpty then
    { answer := "Topilmadi.".data, status := "ok", matchList := [] }
  else
    { answer := context, status := "ok", matchList := res.matchList.take 5 }

/-! ## Helper lemmas -/

lemma tryKey_ne_nil {p : Payload} {k : String} {v : List Char} (h : tryKey p k = some v) :
    v ≠ [] := by
  unfold tryKey at h
  cases hk : p k with
  | none => rw [hk] at h; exact absurd h (by simp)
  | some pv =>
    cases pv with
    | other => rw [hk] at h; exact absurd h (by simp)
    | str s =>
      rw [hk] at h
      by_cases he : (pyStrip s.data).isEmpty
      · simp [he] at h
      · simp [he] at h
        subst h
        simpa using he

lemma firstUsable_eq_nil_iff (p : Payload) (ks : List String) :
    firstUsable p ks = [] ↔ ∀ k ∈ ks, tryKey p k = none := by
  induction ks with
  | nil => simp [firstUsable]
  | cons k ks ih =>
    cases hk : tryKey p k with
    | none => simp [firstUsable, hk, ih]
    | some v =>
      simp only [firstUsable, hk]
      constructor
      · intro hv; exact absurd hv (tryKey_ne_nil hk)
      · intro hall
        have := hall k (by simp)
        rw [hk] at this; exact absurd this (by simp)

lemma firstUsable_split (p : Payload) (ks : List String) (h : firstUsable p ks ≠ []) :
    ∃ ks₁ k ks₂, ks = ks₁ ++ k :: ks₂ ∧ (∀ k' ∈ ks₁, tryKey p k' = none) ∧
      tryKey p k = some (firstUsable p ks) := by
  induction ks with
  | nil => exact absurd rfl h
  | cons k ks ih =>
    cases hk : tryKey p k with
    | some v =>
      refine ⟨[], k, ks, rfl, by simp, ?_⟩
      simp [firstUsable, hk]
    | none =>
      have h' : firstUsable p ks ≠ [] := by
        simpa [firstUsable, hk] using h
      obtain ⟨ks₁, k₀, ks₂, heq, hnone, hsome⟩ := ih h'
      refine ⟨k :: ks₁, k₀, ks₂, by rw [heq]; rfl, ?_, ?_⟩
      · intro k' hk'
        rcases List.mem_cons.mp hk' with rfl | hmem
        · exact hk
        · exact hnone k' hmem
      · simpa [firstUsable, hk] using hsome

lemma extract_eq_firstUsable (tk : String) (p : Payload) :
    extract_text tk p = firstUsable p (tk :: fallbackKeys) := by
  unfold extract_text firstUsable
  cases tryKey p tk <;> rfl

/-- A point the selection loop of `ask` skips: dropped by the threshold
or classified boilerplate. -/
def skippedPoint (tk : String) (thr : Option ℚ) (p : Point) : Prop :=
  survivesThreshold thr p.score = false ∨
    is_boilerplate (extract_text tk (p.payload.getD emptyPayload)) = true

lemma chosen_eq_none_of_skipped (tk : String) (thr : Option ℚ) (pts : List Point)
    (h : ∀ p ∈ pts, skippedPoint tk thr p) : chosen tk thr pts = none := by
  induction pts with
  | nil => rfl
  | cons p ps ih =>
    have hp := h p (by simp)
    have hrest : chosen tk thr ps = none := ih fun q hq => h q (by simp [hq])
    rcases hp with hthr | hbp
    · simp [chosen, hthr, hrest]
    · cases hs : survivesThreshold thr p.score
      · simp [chosen, hs, hrest]
      · simp [chosen, hs, hbp, hrest]

/-- The survival test as the claim words it: the threshold is unset, or
the candidate's score is not below it (a missing score is never below). -/
def surviveSpec (thr : Option ℚ) (c : Candidate) : Bool :=
  match thr, c.score with
  | none, _ => true
  | some _, none => true
  | some th, some sc => !(decide (sc < th))

/-- The Match a surviving candidate becomes. -/
def enrich (tk : String) (c : Candidate) : Match :=
  { id := c.id, score := c.score, text := extract_text tk c.payload, payload := c.payload }

lemma dropByThreshold_eq_not_survive (thr : Option ℚ) (c : Candidate) :
    dropByThreshold thr c.score = !surviveSpec thr c := by
  unfold dropByThreshold surviveSpec
  cases thr <;> cases hc : c.score <;> simp

lemma ask_many_loop_eq_filter (tk : String) (thr : Option ℚ) (cs : List Candidate) :
    ask_many_loop tk thr cs = (cs.filter (surviveSpec thr)).map (enrich tk) := by
  induction cs with
  | nil => rfl
  | cons c cs ih =>
    cases hs : surviveSpec thr c
    · have hd : dropByThreshold thr c.score = true := by
        rw [dropByThreshold_eq_not_survive, hs]; rfl
      simp [ask_many_loop, hd, List.filter_cons, hs, ih]
    · have hd : dropByThreshold thr c.score = false := by
        rw [dropByThreshold_eq_not_survive, hs]; rfl
      simp [ask_many_loop, hd, List.filter_cons, hs, ih, enrich]

/-- The noise policy as the claim words it: one disjunct per filter rule
(empty or all-whitespace; trimmed length below 60; phone pattern;
denylist phrase; bounded repetition of short tokens). -/
def isNoiseSpec (text : List Char) : Bool :=
  text.all isPySpace
  || decide ((pyStrip text).length < 60)
  || phoneSearch (pyStrip text)
  || denyHit (pyStrip text)
  || shortTokensMatch (newlineToSpace (pyStrip text))

lemma pyStrip_of_all {text : List Char} (h : text.all isPySpace = true) :
    pyStrip text = [] := by
  have hd : text.dropWhile isPySpace = [] :=
    List.dropWhile_eq_nil_iff.mpr fun a ha => (List.all_eq_true.mp h) a ha
  unfold pyStrip
  rw [hd]
  rfl

lemma boilerplate_eq_rules (text : List Char) : is_boilerplate text = isNoiseSpec text := by
  by_cases he : text.isEmpty
  · have : text = [] := by simpa using he
    subst this
    rfl
  · by_cases hall : text.all isPySpace
    · have hs : pyStrip text = [] := pyStrip_of_all hall
      simp [is_boilerplate, isNoiseSpec, he, hall, hs]
    · by_cases h1 : (pyStrip text).length < 60 <;>
      by_cases h2 : phoneSearch (pyStrip text) = true <;>
      by_cases h3 : denyHit (pyStrip text) = true <;>
      by_cases h4 : shortTokensMatch (newlineToSpace (pyStrip text)) = true <;>
      simp [is_boilerplate, isNoiseSpec, he, hall, h1, h2, h3, h4]

lemma isShortGroup_filter_len {g : List Char} (h : isShortGroup g = true) :
    1 ≤ (g.filter isWordChar).length ∧ (g.filter isWordChar).length ≤ 3 := by
  unfold isShortGroup at h
  simp only [Bool.and_eq_true, decide_eq_true_eq] at h
  obtain ⟨⟨h1, h2⟩, h3⟩ := h
  have hg : g.takeWhile (fun c => !isWordChar c) ++ g.dropWhile (fun c => !isWordChar c) = g :=
    List.takeWhile_append_dropWhile _ _
  have hfilter : g.filter isWordChar =
      (g.dropWhile (fun c => !isWordChar c)).filter isWordChar := by
    conv_lhs => rw [← hg]
    rw [List.filter_append]
    have hnil : (g.takeWhile (fun c => !isWordChar c)).filter isWordChar = [] := by
      rw [List.filter_eq_nil_iff]
      intro a ha
      have := List.mem_takeWhile_imp ha
      simpa using this
    rw [hnil, List.nil_append]
  set l1 := g.dropWhile (fun c => !isWordChar c) with hl1
  have hl1split : l1.takeWhile isWordChar ++ l1.dropWhile isWordChar = l1 :=
    List.takeWhile_append_dropWhile _ _
  have hl1f : l1.filter isWordChar = l1.takeWhile isWordChar := by
    conv_lhs => rw [← hl1split]
    rw [List.filter_append]
    have hw : (l1.takeWhile isWordChar).filter isWordChar = l1.takeWhile isWordChar :=
      List.filter_eq_self.mpr fun a ha => List.mem_takeWhile_imp ha
    have hr : (l1.dropWhile isWordChar).filter isWordChar = [] := by
      rw [List.filter_eq_nil_iff]
      intro a ha
      have := (List.all_eq_true.mp h3) a ha
      simpa using this
    rw [hw, hr, List.append_nil]
  rw [hfilter, hl1f]
  exact ⟨h1, h2⟩

lemma matchShortGroups_wordcount :
    ∀ (k : Nat) (l : List Char), matchShortGroups l k = true →
      (l.filter isWordChar).length ≤ 3 * k := by
  intro k
  induction k with
  | zero => intro l h; simp [matchShortGroups] at h
  | succ k ih =>
    intro l h
    rw [matchShortGroups, List.any_eq_true] at h
    obtain ⟨i, _, hcond⟩ := h
    rw [Bool.and_eq_true] at hcond
    obtain ⟨hg, hrest⟩ := hcond
    have hsplit : l.take i ++ l.drop i = l := List.take_append_drop i l
    have hlen : (l.filter isWordChar).length =
        ((l.take i).filter isWordChar).length + ((l.drop i).filter isWordChar).length := by
      conv_lhs => rw [← hsplit]
      rw [List.filter_append, List.length_append]
    have h3 := (isShortGroup_filter_len hg).2
    rw [Bool.or_eq_true] at hrest
    rcases hrest with hemp | hrec
    · have hnil : l.drop i = [] := by simpa using hemp
      rw [hnil] at hlen
      simp only [List.filter_nil, List.length_nil] at hlen
      omega
    · have := ih (l.drop i) hrec
      omega

/-- The 200-character plain-language paragraph of the claim: no digits,
no denylisted phrase, plenty of words longer than three characters. -/
def para200 : String :=
  "The committee reviewed the proposal carefully and concluded that the suggested changes would improve reliability without adding needless complexity, so the team agreed to adopt them in the next cycle."

set_option maxRecDepth 4000 in
lemma para200_not_short :
    shortTokensMatch (newlineToSpace (pyStrip para200.data)) = false := by
  by_contra h
  rw [Bool.not_eq_false] at h
  have hle := matchShortGroups_wordcount 6 _ h
  have hcount :
      (((newlineToSpace (pyStrip para200.data))).filter isWordChar).length = 169 := by decide
  omega

lemma takeWhile_append_all {p : Char → Bool} {xs ys : List Char}
    (h : ∀ a ∈ xs, p a = true) :
    (xs ++ ys).takeWhile p = xs ++ ys.takeWhile p := by
  induction xs with
  | nil => simp
  | cons x xs ih =>
    have hx := h x (by simp)
    simp only [List.cons_append, List.takeWhile_cons, hx, if_true]
    rw [ih fun a ha => h a (by simp [ha])]

/-- What the phone regex actually accepts somewhere in the string: an
infix consisting of a digit, at least seven characters of the class
digits/whitespace/hyphen/parentheses, and a final digit — i.e. a span of
at least nine phone-class characters that begins and ends with a digit.
Nothing requires nine *digits*. -/
def SpanPattern (cs : List Char) : Prop :=
  ∃ (l : List Char) (d : Char) (mid : List Char) (d₂ : Char) (r : List Char),
    cs = l ++ d :: (mid ++ d₂ :: r) ∧ d.isDigit = true ∧ d₂.isDigit = true ∧
      (∀ a ∈ mid, isPhoneClass a = true) ∧ 7 ≤ mid.length

lemma phoneMatchCore_iff (l : List Char) :
    phoneMatchCore l = true ↔
      ∃ (d : Char) (mid : List Char) (d₂ : Char) (r : List Char),
        l = d :: (mid ++ d₂ :: r) ∧ d.isDigit = true ∧ d₂.isDigit = true ∧
          (∀ a ∈ mid, isPhoneClass a = true) ∧ 7 ≤ mid.length := by
  constructor
  · intro h
    cases l with
    | nil => simp [phoneMatchCore] at h
    | cons c rest =>
      rw [show phoneMatchCore (c :: rest) =
          (c.isDigit && ((rest.takeWhile isPhoneClass).drop 7).any Char.isDigit) from rfl,
        Bool.and_eq_true] at h
      obtain ⟨hd, hany⟩ := h
      rw [List.any_eq_true] at hany
      obtain ⟨x, hx, hxd⟩ := hany
      obtain ⟨a, b, hab⟩ := List.append_of_mem hx
      set run := rest.takeWhile isPhoneClass with hrun
      have hrunsplit : run.take 7 ++ (a ++ x :: b) = run := by
        rw [← hab]; exact List.take_append_drop 7 run
      have hrunlen : 7 ≤ run.length := by
        by_contra hlt
        have : run.drop 7 = [] := List.drop_eq_nil_iff.mpr (by omega)
        rw [this] at hab
        exact absurd hab.symm (by simp)
      have hlen7 : (run.take 7).length = 7 := by
        rw [List.length_take]; omega
      have hrest : rest = run ++ rest.dropWhile isPhoneClass :=
        (List.takeWhile_append_dropWhile _ _).symm
      refine ⟨c, run.take 7 ++ a, x, b ++ rest.dropWhile isPhoneClass, ?_, hd, hxd, ?_, ?_⟩
      · rw [List.cons_eq_cons]
        refine ⟨rfl, ?_⟩
        conv_lhs => rw [hrest, ← hrunsplit]
        simp [List.append_assoc]
      · intro u hu
        have hmem : u ∈ run := by
          rcases List.mem_append.mp hu with h1 | h2
          · exact List.mem_of_mem_take h1
          · have : u ∈ run.drop 7 := by rw [hab]; simp [h2]
            exact List.mem_of_mem_drop this
        exact List.mem_takeWhile_imp hmem
      · rw [List.length_append, hlen7]; omega
  · rintro ⟨d, mid, d₂, r, rfl, hd, hd₂, hmid, hlen⟩
    rw [show phoneMatchCore (d :: (mid ++ d₂ :: r)) =
        (d.isDigit && (((mid ++ d₂ :: r).takeWhile isPhoneClass).drop 7).any Char.isDigit)
      from rfl, Bool.and_eq_true]
    refine ⟨hd, ?_⟩
    have hd₂c : isPhoneClass d₂ = true := by simp [isPhoneClass, hd₂]
    have ht : (mid ++ d₂ :: r).takeWhile isPhoneClass =
        mid ++ (d₂ :: r).takeWhile isPhoneClass := takeWhile_append_all hmid
    have ht2 : (d₂ :: r).takeWhile isPhoneClass = d₂ :: r.takeWhile isPhoneClass := by
      simp [List.takeWhile_cons, hd₂c]
    rw [List.any_eq_true]
    refine ⟨d₂, ?_, hd₂⟩
    rw [ht, ht2, List.drop_append_eq_append_drop]
    have : 7 - mid.length = 0 := by omega
    rw [this, List.drop_zero]
    exact List.mem_append.mpr (Or.inr (by simp))

lemma phoneSearch_iff (cs : List Char) : phoneSearch cs = true ↔ SpanPattern cs := by
  induction cs with
  | nil =>
    constructor
    · intro h; simp [phoneSearch] at h
    · rintro ⟨l, d, mid, d₂, r, habs, -⟩
      exact absurd habs.symm (by simp)
  | cons c rest ih =>
    rw [show phoneSearch (c :: rest) =
        ((if c = '+' then phoneMatchCore rest else phoneMatchCore (c :: rest)) || phoneSearch rest)
      from rfl, Bool.or_eq_true]
    constructor
    · rintro (hhead | htail)
      · by_cases hplus : c = '+'
        · rw [if_pos hplus] at hhead
          obtain ⟨d, mid, d₂, r, hre, hd, hd₂, hmid, hlen⟩ := (phoneMatchCore_iff rest).mp hhead
          exact ⟨[c], d, mid, d₂, r, by rw [hre]; rfl, hd, hd₂, hmid, hlen⟩
        · rw [if_neg hplus] at hhead
          obtain ⟨d, mid, d₂, r, hre, hd, hd₂, hmid, hlen⟩ :=
            (phoneMatchCore_iff (c :: rest)).mp hhead
          exact ⟨[], d, mid, d₂, r, by rw [← hre]; rfl, hd, hd₂, hmid, hlen⟩
      · obtain ⟨l, d, mid, d₂, r, hre, hd, hd₂, hmid, hlen⟩ := ih.mp htail
        exact ⟨c :: l, d, mid, d₂, r, by rw [hre]; rfl, hd, hd₂, hmid, hlen⟩
    · rintro ⟨l, d, mid, d₂, r, hre, hd, hd₂, hmid, hlen⟩
      cases l with
      | nil =>
        left
        have hc : c = d ∧ rest = mid ++ d₂ :: r := by
          have := hre
          simp only [List.nil_append, List.cons_eq_cons] at this
          exact this
        obtain ⟨rfl, rfl⟩ := hc
        have hplus : ¬ c = '+' := by
          intro habs; rw [habs] at hd; exact absurd hd (by decide)
        rw [if_neg hplus]
        exact (phoneMatchCore_iff _).mpr ⟨c, mid, d₂, r, rfl, hd, hd₂, hmid, hlen⟩
      | cons x l' =>
        right
        have hc : rest = l' ++ d :: (mid ++ d₂ :: r) := by
          have := hre
          simp only [List.cons_append, List.cons_eq_cons] at this
          exact this.2
        exact ih.mpr ⟨l', d, mid, d₂, r, hc, hd, hd₂, hmid, hlen⟩

/-- The pattern as the claim words it, as a decidable check: some span of
phone-class characters beginning and ending with a digit whose digit
groups total at least nine digits. -/
def claimPhonePattern (cs : List Char) : Bool :=
  (List.range (cs.length + 1)).any fun i =>
    (List.range (cs.length + 1)).any fun j =>
      let m := (cs.drop i).take j
      !m.isEmpty && (m.head?.getD '+').isDigit && (m.getLast?.getD '+').isDigit
        && m.all isPhoneClass && decide (9 ≤ (m.filter Char.isDigit).length)

lemma boilerplate_of_phone {text : List Char} (h : phoneSearch (pyStrip text) = true) :
    is_boilerplate text = true := by
  unfold is_boilerplate
  by_cases he : text.isEmpty
  · rw [if_pos he]
  · rw [if_neg he]
    by_cases hl : (pyStrip text).length < 60
    · rw [if_pos hl]
    · rw [if_neg hl, if_pos h]

lemma mem_insertByScore {a m : Match} {l : List Match} :
    a ∈ insertByScore m l ↔ a = m ∨ a ∈ l := by
  induction l with
  | nil => simp [insertByScore]
  | cons y ys ih =>
    rw [show insertByScore m (y :: ys) =
        (if matchKey m < matchKey y then y :: insertByScore m ys else m :: y :: ys) from rfl]
    by_cases hlt : matchKey m < matchKey y
    · rw [if_pos hlt]
      simp only [List.mem_cons, ih]
      try tauto
    · rw [if_neg hlt]
      simp only [List.mem_cons]
      try tauto

lemma insertByScore_ne_nil (m : Match) (l : List Match) : insertByScore m l ≠ [] := by
  cases l with
  | nil => simp [insertByScore]
  | cons y ys =>
    rw [show insertByScore m (y :: ys) =
        (if matchKey m < matchKey y then y :: insertByScore m ys else m :: y :: ys) from rfl]
    by_cases hlt : matchKey m < matchKey y
    · rw [if_pos hlt]; simp
    · rw [if_neg hlt]; simp

lemma sortByScore_eq_nil_iff {l : List Match} : sortByScore l = [] ↔ l = [] := by
  cases l with
  | nil => simp [sortByScore]
  | cons m ms =>
    constructor
    · intro h
      exact absurd h (insertByScore_ne_nil m (sortByScore ms))
    · intro h; exact absurd h (by simp)

lemma mem_sortByScore {a : Match} {l : List Match} : a ∈ sortByScore l ↔ a ∈ l := by
  induction l with
  | nil => simp [sortByScore]
  | cons m ms ih =>
    rw [show sortByScore (m :: ms) = insertByScore m (sortByScore ms) from rfl,
      mem_insertByScore]
    simp [ih]

lemma pairwise_insertByScore {m : Match} {l : List Match}
    (h : l.Pairwise fun a b => matchKey b ≤ matchKey a) :
    (insertByScore m l).Pairwise fun a b => matchKey b ≤ matchKey a := by
  induction l with
  | nil => simp [insertByScore]
  | cons y ys ih =>
    rw [List.pairwise_cons] at h
    obtain ⟨hy, hys⟩ := h
    rw [show insertByScore m (y :: ys) =
        (if matchKey m < matchKey y then y :: insertByScore m ys else m :: y :: ys) from rfl]
    by_cases hlt : matchKey m < matchKey y
    · rw [if_pos hlt, List.pairwise_cons]
      refine ⟨?_, ih hys⟩
      intro b hb
      rcases mem_insertByScore.mp hb with rfl | hmem
      · exact le_of_lt hlt
      · exact hy b hmem
    · rw [if_neg hlt, List.pairwise_cons]
      refine ⟨?_, List.pairwise_cons.mpr ⟨hy, hys⟩⟩
      intro b hb
      rcases List.mem_cons.mp hb with rfl | hmem
      · exact le_of_not_lt hlt
      · exact le_trans (hy b hmem) (le_of_not_lt hlt)

lemma sortByScore_pairwise (l : List Match) :
    (sortByScore l).Pairwise fun a b => matchKey b ≤ matchKey a := by
  induction l with
  | nil => simp [sortByScore]
  | cons m ms ih => exact pairwise_insertByScore ih

lemma sortByScore_head_max {l : List Match} {top : Match} {rest : List Match}
    (h : sortByScore l = top :: rest) : ∀ m ∈ l, matchKey m ≤ matchKey top := by
  intro m hm
  have hmem : m ∈ sortByScore l := mem_sortByScore.mpr hm
  rw [h] at hmem
  rcases List.mem_cons.mp hmem with rfl | hmem
  · exact le_refl _
  · have hp := sortByScore_pairwise l
    rw [h, List.pairwise_cons] at hp
    exact hp.1 m hmem

lemma assembleLoop_length (maxChars maxChunks : Nat) :
    ∀ (ms : List Match) (seen : List (List Char)) (acc : List Char) (n : Nat),
      acc.length ≤ maxChars →
      (assembleLoop maxChars maxChunks ms seen acc n).length ≤ maxChars := by
  intro ms
  induction ms with
  | nil => intro seen acc n hacc; simpa [assembleLoop] using hacc
  | cons m ms ih =>
    intro seen acc n hacc
    simp only [assembleLoop]
    set sep := (if n = 0 then ([] : List Char) else SEP) with hsep
    split_ifs with h1 h2 h3 h4 h5 h6
    · exact ih seen acc n hacc
    · exact ih seen acc n hacc
    · exact ih seen acc n hacc
    · simp only [List.length_append, List.length_take]
      omega
    · exact hacc
    · simp only [List.length_append]
      omega
    · refine ih _ _ _ ?_
      simp only [List.length_append]
      omega

lemma assembleLoop_acc_grows (maxChars maxChunks : Nat) :
    ∀ (ms : List Match) (seen : List (List Char)) (acc : List Char) (n : Nat),
      ∃ s, assembleLoop maxChars maxChunks ms seen acc n = acc ++ s := by
  intro ms
  induction ms with
  | nil => intro seen acc n; exact ⟨[], by simp [assembleLoop]⟩
  | cons m ms ih =>
    intro seen acc n
    simp only [assembleLoop]
    set sep := (if n = 0 then ([] : List Char) else SEP) with hsep
    split_ifs with h1 h2 h3 h4 h5 h6
    · exact ih seen acc n
    · exact ih seen acc n
    · exact ih seen acc n
    · exact ⟨_, by rw [List.append_assoc]⟩
    · exact ⟨[], by simp⟩
    · exact ⟨_, by rw [List.append_assoc]⟩
    · obtain ⟨s, hs⟩ := ih (pyStrip m.text :: seen) (acc ++ sep ++ pyStrip m.text) (n + 1)
      exact ⟨sep ++ pyStrip m.text ++ s, by rw [hs]; simp [List.append_assoc]⟩

lemma answer_text_length (ms : List Match) (maxChars maxChunks : Nat) :
    (answer_text ms maxChars maxChunks).length ≤ maxChars := by
  unfold answer_text
  cases hs : sortByScore ms with
  | nil => simp [answer_core]
  | cons top rest =>
    simp only [answer_core]
    by_cases hout : (assembleLoop maxChars maxChunks (top :: rest) [] [] 0).isEmpty
    · rw [if_pos hout]
      simp [List.length_take]
    · rw [if_neg hout]
      exact assembleLoop_length maxChars maxChunks (top :: rest) [] [] 0 (by simp)

lemma answer_text_empty (ms : List Match) (maxChars maxChunks : Nat) (hc : 0 < maxChars)
    (h : answer_text ms maxChars maxChunks = []) :
    ms = [] ∨ ∃ m ∈ ms, pyStrip m.text = [] ∧ ∀ m' ∈ ms, matchKey m' ≤ matchKey m := by
  unfold answer_text at h
  cases hs : sortByScore ms with
  | nil => exact Or.inl (sortByScore_eq_nil_iff.mp hs)
  | cons top rest =>
    rw [hs] at h
    simp only [answer_core] at h
    by_cases hout : (assembleLoop maxChars maxChunks (top :: rest) [] [] 0).isEmpty
    · rw [if_pos hout] at h
      have htop : pyStrip top.text = [] := by
        rcases List.take_eq_nil_iff.mp h with hc0 | hnil
        · omega
        · exact hnil
      refine Or.inr ⟨top, ?_, htop, sortByScore_head_max hs⟩
      have : top ∈ sortByScore ms := by rw [hs]; simp
      exact mem_sortByScore.mp this
    · rw [if_neg hout] at h
      rw [h] at hout
      exact absurd rfl hout

/-! ## Claim theorems -/

/-- C1: for every retrieval call the orchestrator `ask_many` returns
`found = (number of surviving matches > 0)` together with all surviving
Matches in index-returned order, where a candidate survives exactly when
the threshold is unset or its score is not below it; ranking and noise
filtering remove nothing at this stage (the result is exactly the
threshold-filtered, text-enriched candidate list). -/
theorem claim1_retrieve (tk : String) (thr : Option ℚ) (cands : List Candidate) :
    (ask_many tk thr cands).matchList = (cands.filter (surviveSpec thr)).map (enrich tk) ∧
    (ask_many tk thr cands).found = decide (0 < (cands.filter (surviveSpec thr)).length) := by
  constructor
  · exact ask_many_loop_eq_filter tk thr cands
  · show (!(ask_many_loop tk thr cands).isEmpty) =
      decide (0 < (cands.filter (surviveSpec thr)).length)
    have hlen : (ask_many_loop tk thr cands).length =
        (cands.filter (surviveSpec thr)).length := by
      rw [ask_many_loop_eq_filter]
      exact List.length_map _ _
    cases hl : ask_many_loop tk thr cands with
    | nil => rw [hl] at hlen; simp [← hlen]
    | cons a l => rw [hl] at hlen; simp [← hlen]

set_option maxRecDepth 4000 in
/-- C2: `_is_boilerplate` is true iff at least one filter rule fires
(empty or all-whitespace; trimmed length below 60; phone pattern;
denylisted phrase, case-insensitively; bounded repetition of at most six
short 1–3 character tokens); in particular the 200-character
plain-language paragraph `para200` with no denylisted phrase or phone
number is not noise. -/
theorem claim2_noise_rules :
    (∀ text : List Char, is_boilerplate text = isNoiseSpec text) ∧
    para200.length = 200 ∧ is_boilerplate para200.data = false := by
  refine ⟨boilerplate_eq_rules, by decide, ?_⟩
  rw [boilerplate_eq_rules]
  unfold isNoiseSpec
  rw [para200_not_short]
  simp only [Bool.or_false]
  decide

/-- The scenario payload of the C3 claim: `clean_text` holds an empty
string, `text` a usable one. -/
def scenarioPayload : Payload := fun k =>
  if k = "clean_text" then some (.str "")
  else if k = "text" then
    some (.str "Hello world this is a long enough passage to not be noise.")
  else none

/-- C3: `_extract_text` probes the configured primary key, then the fixed
fallback order `clean_text, text, body, answer, question`, returning the
first value that is a non-empty string after trimming, trimmed (`tryKey`
succeeds exactly on such values and returns them trimmed); it is empty
exactly when no configured key holds usable text; and on the claim's
scenario payload with primary key `clean_text` it returns the `text`
value. -/
theorem claim3_extract (tk : String) (p : Payload) :
    (extract_text tk p = [] ↔ ∀ k ∈ tk :: fallbackKeys, tryKey p k = none) ∧
    (extract_text tk p ≠ [] →
      ∃ ks₁ k ks₂, tk :: fallbackKeys = ks₁ ++ k :: ks₂ ∧
        (∀ k' ∈ ks₁, tryKey p k' = none) ∧ tryKey p k = some (extract_text tk p)) ∧
    extract_text "clean_text" scenarioPayload =
      "Hello world this is a long enough passage to not be noise.".data := by
  refine ⟨?_, ?_, by decide⟩
  · rw [extract_eq_firstUsable]
    exact firstUsable_eq_nil_iff p _
  · intro h
    rw [extract_eq_firstUsable] at h ⊢
    exact firstUsable_split p _ h

/-- Witness for C3: on the scenario payload the extracted text is
non-empty and is produced by the first usable probe. -/
theorem claim3_witness :
    ∃ ks₁ k ks₂, "clean_text" :: fallbackKeys = ks₁ ++ k :: ks₂ ∧
      (∀ k' ∈ ks₁, tryKey scenarioPayload k' = none) ∧
      tryKey scenarioPayload k = some (extract_text "clean_text" scenarioPayload) :=
  (claim3_extract "clean_text" scenarioPayload).2.1 (by decide)

/-- The counterexample input for C4: the highest-scored match has empty
text while a lower-scored match has non-empty (but noisy) text. -/
def cexMatches : List Match :=
  [ { id := 1, score := some (mkRat 9 10), text := [], payload := emptyPayload }
  , { id := 2, score := some (mkRat 1 10), text := "hello".data, payload := emptyPayload } ]

/-- Counterexample to C4 as stated: `answer_text` returns the empty
string on `cexMatches` although not every input Match had empty text —
the selection loop rejects the second match as noise and the fallback
takes the raw text of the highest-scored match, which is empty. -/
theorem claim4_counterexample :
    answer_text cexMatches 1800 6 = [] ∧ ¬ (∀ m ∈ cexMatches, m.text = []) := by
  constructor
  · decide
  · decide

/-- C4 (amended): for every sequence of Matches and positive `maxChars`
and `maxChunks`, the assembled string has length at most `maxChars`, and
it is empty only if the match list is empty or some maximal-score match
has empty trimmed text (not: only if every input Match had empty text). -/
theorem claim4_amended_assemble (ms : List Match) (maxChars maxChunks : Nat)
    (h1 : 0 < maxChars) (_h2 : 0 < maxChunks) :
    (answer_text ms maxChars maxChunks).length ≤ maxChars ∧
    (answer_text ms maxChars maxChunks = [] →
      ms = [] ∨ ∃ m ∈ ms, pyStrip m.text = [] ∧ ∀ m' ∈ ms, matchKey m' ≤ matchKey m) :=
  ⟨answer_text_length ms maxChars maxChunks, answer_text_empty ms maxChars maxChunks h1⟩

/-- The witness input for C4. -/
def w4Matches : List Match :=
  [ { id := 7, score := none, text := "prices".data, payload := emptyPayload } ]

/-- Witness for C4 (amended), at `w4Matches` with budget 1800/6. -/
theorem claim4_witness :
    (answer_text w4Matches 1800 6).length ≤ 1800 ∧
    (answer_text w4Matches 1800 6 = [] →
      w4Matches = [] ∨ ∃ m ∈ w4Matches, pyStrip m.text = [] ∧
        ∀ m' ∈ w4Matches, matchKey m' ≤ matchKey m) :=
  claim4_amended_assemble w4Matches 1800 6 (by decide) (by decide)

/-- Counterexample to C5 as stated: the standalone embedder's error for a
non-success response carries only the body; its message for status 500
and body `boom` does not contain the status code. -/
theorem claim5_counterexample :
    EmbedderModule.embed { status := 500, text := "boom", embedding := [] } =
      .error "Error: boom" ∧
    containsSub "500".data "Error: boom".data = false := by
  constructor
  · rfl
  · decide

/-- C5 (amended): both `embed` variants raise exactly when the provider
status is not 200; the `search.py` variant's error carries the status
code and the body, while the `embedder.py` variant's error carries only
the body; on success both return the parsed embedding. -/
theorem claim5_amended_embed (r : HttpResponse) :
    ((∃ e, SearchModule.embed r = .error e) ↔ r.status ≠ 200) ∧
    ((∃ e, EmbedderModule.embed r = .error e) ↔ r.status ≠ 200) ∧
    (r.status ≠ 200 →
      SearchModule.embed r =
        .error ("OpenRouter error " ++ toString r.status ++ ": " ++ r.text) ∧
      EmbedderModule.embed r = .error ("Error: " ++ r.text)) ∧
    (r.status = 200 →
      SearchModule.embed r = .ok r.embedding ∧ EmbedderModule.embed r = .ok r.embedding) := by
  unfold SearchModule.embed EmbedderModule.embed
  by_cases h : r.status = 200
  · simp [h]
  · simp [h]

/-- Witness for C5 (amended), at a concrete 404 response. -/
theorem claim5_witness :
    SearchModule.embed { status := 404, text := "nope", embedding := [] } =
      .error ("OpenRouter error " ++ toString (404 : Nat) ++ ": " ++ "nope") ∧
    EmbedderModule.embed { status := 404, text := "nope", embedding := [] } =
      .error ("Error: " ++ "nope") :=
  (claim5_amended_embed { status := 404, text := "nope", embedding := [] }).2.2.1 (by decide)

/-- C6: an empty index result, or a result in which no candidate survives
the threshold, is a normal not-found outcome of `ask`: `found = false`
with empty/None content, and no exception (`ask` is a total function of
the index result). -/
theorem claim6_not_found (tk : String) (thr : Option ℚ) (pts : List Point)
    (h : pts = [] ∨ ∀ p ∈ pts, survivesThreshold thr p.score = false) :
    (ask tk thr pts).found = false ∧
    (pts = [] →
      ask tk thr pts = { found := false, text := none, score := none, payload := none }) := by
  rcases h with rfl | hall
  · exact ⟨rfl, fun _ => rfl⟩
  · cases pts with
    | nil => exact ⟨rfl, fun _ => rfl⟩
    | cons p0 rest =>
      have hch : chosen tk thr (p0 :: rest) = none :=
        chosen_eq_none_of_skipped tk thr _ fun p hp => Or.inl (hall p hp)
      refine ⟨?_, ?_⟩
      · simp [ask, hch]
      · intro habs
        exact absurd habs (by simp)

/-- Witness for C6: the empty index result and a below-threshold result
both give `found = false`. -/
theorem claim6_witness :
    (ask "text" (some (mkRat 3 10)) []).found = false ∧
    (ask "text" (some (mkRat 3 10)) [{ score := some (mkRat 1 10), payload := none }]).found
      = false :=
  ⟨(claim6_not_found "text" (some (mkRat 3 10)) [] (Or.inl rfl)).1,
   (claim6_not_found "text" (some (mkRat 3 10)) [{ score := some (mkRat 1 10), payload := none }]
      (Or.inr (by decide))).1⟩

/-- C7 (amended): the phone rule `phoneSearch` fires on a text iff the
text contains a span of at least nine characters drawn from
digits/whitespace/hyphens/parentheses that begins and ends with a digit
(so at least two digits — not: digit groups totaling at least nine
digits); and every text whose trimmed form fires the rule is classified
noise by `_is_boilerplate`. -/
theorem claim7_amended_phone (t : List Char) :
    (phoneSearch t = true ↔ SpanPattern t) ∧
    (phoneSearch (pyStrip t) = true → is_boilerplate t = true) :=
  ⟨phoneSearch_iff t, boilerplate_of_phone⟩

/-- Counterexample to C7 as stated: the rule fires on `1--------2`, a
text whose every span contains at most two digits, so no pattern of digit
groups totaling at least nine digits is present. -/
theorem claim7_counterexample :
    phoneSearch "1--------2".data = true ∧ claimPhonePattern "1--------2".data = false := by
  constructor
  · decide
  · decide

/-- Witness for C7 (amended): the claim's own phone-number example is
caught by the rule and classified noise. -/
theorem claim7_witness :
    phoneSearch (pyStrip "+998 90 123 45 67".data) = true ∧
    is_boilerplate "+998 90 123 45 67".data = true :=
  ⟨by decide, (claim7_amended_phone "+998 90 123 45 67".data).2 (by decide)⟩

/-- C8: the request handler returns the fixed fallback answer
`Topilmadi.` with an empty match list exactly when no context string is
assembled, and otherwise returns the assembled context as the answer with
at most five matches. -/
theorem claim8_question_api (cands : List Candidate) :
    ((question_api cands).answer = "Topilmadi.".data ∧ (question_api cands).matchList = [] ↔
      answer_text (ask_many "text" none cands).matchList 1800 6 = []) ∧
    (answer_text (ask_many "text" none cands).matchList 1800 6 ≠ [] →
      (question_api cands).answer = answer_text (ask_many "text" none cands).matchList 1800 6 ∧
      (question_api cands).matchList.length ≤ 5) := by
  by_cases hctx : (answer_text (ask_many "text" none cands).matchList 1800 6).isEmpty
  · have hc : answer_text (ask_many "text" none cands).matchList 1800 6 = [] := by
      simpa using hctx
    have hq : question_api cands =
        { answer := "Topilmadi.".data, status := "ok", matchList := [] } := by
      unfold question_api
      simp [hctx]
    constructor
    · rw [hq]
      simp [hc]
    · intro h
      exact absurd hc h
  · have hc : answer_text (ask_many "text" none cands).matchList 1800 6 ≠ [] := by
      simpa using hctx
    have hq : question_api cands =
        { answer := answer_text (ask_many "text" none cands).matchList 1800 6
        , status := "ok"
        , matchList := (ask_many "text" none cands).matchList.take 5 } := by
      unfold question_api
      simp [hctx]
    constructor
    · rw [hq]
      constructor
      · rintro ⟨hans, hmat⟩
        exfalso
        have hnil : (ask_many "text" none cands).matchList = [] := by
          rcases List.take_eq_nil_iff.mp hmat with h5 | hnil
          · exact absurd h5 (by decide)
          · exact hnil
        rw [hnil] at hc
        exact hc rfl
      · intro habs
        exact absurd habs hc
    · intro _
      rw [hq]
      refine ⟨rfl, ?_⟩
      simp only [List.length_take]
      omega

/-- The witness candidate for C8: its text is noise (too short), so the
assembler's fallback produces the non-empty context `short`. -/
def w8Candidate : Candidate :=
  { id := 1, score := some (mkRat 1 2)
  , payload := fun k => if k = "text" then some (.str "short") else none }

/-- Witness for C8: on a single-candidate input the context is non-empty,
the answer equals the context and at most five matches are returned. -/
theorem claim8_witness :
    (question_api [w8Candidate]).answer =
      answer_text (ask_many "text" none [w8Candidate]).matchList 1800 6 ∧
    (question_api [w8Candidate]).matchList.length ≤ 5 :=
  (claim8_question_api [w8Candidate]).2 (by decide)

/-- C9: a candidate whose score is missing is never dropped by the
score-threshold filter of `ask`, whatever the threshold: it always
survives the threshold test and proceeds to text extraction and noise
classification (the selection loop continues past it only if its
extracted text is boilerplate). -/
theorem claim9_scoreless (tk : String) (thr : Option ℚ) (p : Point) (rest : List Point)
    (h : p.score = none) :
    survivesThreshold thr p.score = true ∧
    chosen tk thr (p :: rest) =
      (if is_boilerplate (extract_text tk (p.payload.getD emptyPayload)) then
        chosen tk thr rest
      else some (extract_text tk (p.payload.getD emptyPayload), none,
        p.payload.getD emptyPayload)) := by
  have hs : survivesThreshold thr none = true := by
    cases thr <;> rfl
  refine ⟨by rw [h]; exact hs, ?_⟩
  simp only [chosen, h, hs, if_true]

/-- The witness payload for C9. -/
def w9Payload : Payload := fun k => if k = "text" then some (.str "short") else none

/-- Witness for C9, at a concrete score-less point under a set
threshold. -/
theorem claim9_witness :
    survivesThreshold (some (mkRat 3 10)) (none : Option ℚ) = true ∧
    chosen "text" (some (mkRat 3 10)) [{ score := none, payload := some w9Payload }] =
      (if is_boilerplate (extract_text "text" w9Payload) then
        chosen "text" (some (mkRat 3 10)) []
      else some (extract_text "text" w9Payload, none, w9Payload)) :=
  claim9_scoreless "text" (some (mkRat 3 10)) { score := none, payload := some w9Payload } [] rfl

/-- C10: when the index returns a non-empty list but every point is
skipped (below threshold or boilerplate text), `ask` returns
`found = false` together with the first point's extracted text (`none` if
extraction yields the empty string), score, and payload — that fallback
bypasses both the score threshold and the noise filter. -/
theorem claim10_fallback (tk : String) (thr : Option ℚ) (p0 : Point) (rest : List Point)
    (h : ∀ p ∈ p0 :: rest, skippedPoint tk thr p) :
    ask tk thr (p0 :: rest) =
      { found := false
      , text := if (extract_text tk (p0.payload.getD emptyPayload)).isEmpty then none
                else some (extract_text tk (p0.payload.getD emptyPayload))
      , score := p0.score
      , payload := some (p0.payload.getD emptyPayload) } := by
  have hch := chosen_eq_none_of_skipped tk thr _ h
  simp [ask, hch]

/-- Witness for C10: a single above-threshold point with no payload is
skipped as boilerplate, and `ask` returns its (empty → `none`) text, its
score, and its defaulted payload with `found = false`. -/
theorem claim10_witness :
    ask "text" (some (mkRat 3 10)) [{ score := some (mkRat 9 10), payload := none }] =
      { found := false
      , text := if (extract_text "text" emptyPayload).isEmpty then none
                else some (extract_text "text" emptyPayload)
      , score := some (mkRat 9 10)
      , payload := some emptyPayload } :=
  claim10_fallback "text" (some (mkRat 3 10)) { score := some (mkRat 9 10), payload := none } []
    (by
      intro p hp
      rw [List.mem_singleton] at hp
      subst hp
      exact Or.inr (by decide))
